import Mathlib

/-!
Verification development for the cubby-logic-remote repository.

The embedding below follows the TypeScript/JavaScript sources:
* the articulation-set parser and auto-assignment engine
  (`logicArticulationParser.ts`, `src/unnamed/part_003`),
* the track-to-set matching logic (`src/app/page.tsx` and the
  `/api/articulations` route, `src/unnamed/part_004`),
* the MIDI dispatch channel-override logic (`src/lib/midiHandler.ts`),
* the WebSocket broadcast filter of the bridge server (`src/unnamed/part_001`).

Machine integers are modelled as `Int` (JavaScript numbers in the integer
range); fallible operations return `Except`/`Option`.  JavaScript `||`
default cascades are modelled with explicit truthiness (`jsOr`), and the
property-list document is modelled from the point after XML decoding as a
tagged tree (`PlistValue`) covering the value shapes the articulation-set
documents use (string / integer / bool / dict / array).  The parser's
generated `id` field (`Date.now()` + `Math.random()` in the source) is
modelled as an external generator parameter `gen : Nat → String`.
-/

namespace CubbyLogic

/-- Tagged property-list value tree, the result of `parsePlistValue` /
`parsePlistDict` in the source (string, integer, bool, dict, array). -/
inductive PlistValue where
  | str  : String → PlistValue
  | int  : Int → PlistValue
  | bool : Bool → PlistValue
  | dict : List (String × PlistValue) → PlistValue
  | arr  : List PlistValue → PlistValue

/-- Dictionary lookup; `parsePlistDict` builds a JS object with
`result[key] = value`, so a later duplicate key overwrites an earlier one
(the last binding wins). -/
def dGet : List (String × PlistValue) → String → Option PlistValue
  | [], _ => none
  | (k, v) :: rest, key =>
      match dGet rest key with
      | some v' => some v'
      | none => if k = key then some v else none

/-- Property access on an arbitrary value: only dicts have keyed fields
(`artData['Name']` on a non-object yields `undefined`). -/
def aGet (v : PlistValue) (key : String) : Option PlistValue :=
  match v with
  | .dict d => dGet d key
  | _ => none

/-- JavaScript truthiness of a decoded plist value: empty strings, `0` and
`false` are falsy; objects and arrays are always truthy. -/
def truthy : PlistValue → Bool
  | .str s => !(s == "")
  | .int n => !(n == 0)
  | .bool b => b
  | .dict _ => true
  | .arr _ => true

/-- JavaScript `a || b` on possibly-missing values: `a` when present and
truthy, otherwise `b` (even when `b` is itself falsy). -/
def jsOr (a b : Option PlistValue) : Option PlistValue :=
  match a with
  | some v => if truthy v then some v else b
  | none => b

/-- Extract an integer (the documents store MIDI numbers as
`<integer>` elements, decoded by `parseInt`). -/
def asInt : Option PlistValue → Option Int
  | some (.int n) => some n
  | _ => none

/-- JavaScript `v || d` for an integer-valued field: `0` is falsy and falls
through to the default (e.g. `outputSettings['ValueLow'] || 127`). -/
def intOrElse (v : Option PlistValue) (d : Int) : Int :=
  match v with
  | some (.int n) => if n == 0 then d else n
  | _ => d

/-- JavaScript `v || d` for a string-valued field: the empty string is falsy
and falls through to the default. -/
def strOrElse (v : Option PlistValue) (d : String) : String :=
  match v with
  | some (.str s) => if s == "" then d else s
  | _ => d

/-- One raw 3-byte MIDI event (`MidiMessage` in the source):
144 = Note On, 176 = CC. -/
structure MidiMessage where
  status : Int
  data1 : Int
  data2 : Int
deriving DecidableEq, Repr

/-- The note/CC that activates an articulation from the controller
(`RemoteTrigger` in the source). -/
structure RemoteTrigger where
  status : Int
  data1 : Int
  isAutoAssigned : Bool
deriving DecidableEq, Repr

/-- One articulation of a set (`Articulation` in the source). -/
structure Articulation where
  id : String
  name : String
  shortName : String
  description : String
  color : Int
  group : Int
  midiMessages : List MidiMessage
  remoteTrigger : Option RemoteTrigger
  keySwitch : Option Int
  articulationType : Int
deriving DecidableEq, Repr

/-- A parsed articulation set (`ArticulationSet` in the source). -/
structure ArticulationSet where
  name : String
  fileName : String
  articulations : List Articulation
deriving DecidableEq, Repr

/-- The `Output` (or `output`) sub-tree of an articulation entry;
`artData['Output'] || artData['output'] || {}`. -/
def outputOf (a : PlistValue) : PlistValue :=
  match jsOr (aGet a "Output") (aGet a "output") with
  | some v => v
  | none => .dict []

/-- The raw `MB1` value of the entry's output settings (Art Conductor
format note number). -/
def artMb1 (a : PlistValue) : Option Int :=
  asInt (aGet (outputOf a) "MB1")

/-- The `Note ?? note` value of the entry's output settings (standard Logic
format; nullish coalescing, so an explicit `0` is kept). -/
def artNoteKey (a : PlistValue) : Option Int :=
  asInt (match aGet (outputOf a) "Note" with
         | some v => some v
         | none => aGet (outputOf a) "note")

/-- Translate a `Status` string field to a MIDI status byte:
`statusStr === 'Note On' ? 144 : statusStr === 'Control Change' ? 176 :
statusStr === 'Poly Pressure' ? 160 : 144`, with `v || 'Note On'` applied
first — so every value other than the two recognised non-default strings
yields 144. -/
def statusOf (v : Option PlistValue) : Int :=
  match v with
  | some (.str "Control Change") => 176
  | some (.str "Poly Pressure") => 160
  | _ => 144

/-- The output MIDI messages of one articulation entry: an Art Conductor
`MB1` trigger (range-checked 0–127, `ValueLow || 127` velocity), then a
standard Logic `Note` trigger (range-checked, `Velocity || 127`), then one
CC message per well-formed entry of the `CC` array. -/
def artMessages (a : PlistValue) : List MidiMessage :=
  let output := outputOf a
  (match artMb1 a with
   | some m =>
       if 0 ≤ m ∧ m ≤ 127 then
         [⟨statusOf (aGet output "Status"), m, intOrElse (aGet output "ValueLow") 127⟩]
       else []
   | none => []) ++
  (match artNoteKey a with
   | some k =>
       if 0 ≤ k ∧ k ≤ 127 then
         [⟨144, k, intOrElse (aGet output "Velocity") 127⟩]
       else []
   | none => []) ++
  (match jsOr (aGet output "CC") (aGet output "cc") with
   | some (.arr l) =>
       l.filterMap fun cc =>
         match asInt (aGet cc "Number"), asInt (aGet cc "Value") with
         | some n, some v => some ⟨176, n, v⟩
         | _, _ => none
   | _ => [])

/-- The entry's cross-reference id into the switch table:
`artData['ID'] || artData['id']` (truthiness, so `ID: 0` falls through to
`id`). -/
def artIdKey (a : PlistValue) : Option Int :=
  asInt (jsOr (aGet a "ID") (aGet a "id"))

/-- Lookup of the switch-table entry for a given articulation id.  The
source builds a `Map` with `switchesMap.set(sw['ID'], sw)` over every
switch having an `ID`, so the last switch with a given id wins. -/
def switchFor : List PlistValue → Option Int → Option (List (String × PlistValue))
  | [], _ => none
  | sw :: rest, some i =>
      match switchFor rest (some i) with
      | some d => some d
      | none =>
          match sw with
          | .dict d =>
              match dGet d "ID" with
              | some (.int j) => if j = i then some d else none
              | _ => none
          | _ => none
  | _ :: _, none => none

/-- Remote trigger derived from the switch table (Art Conductor format):
the referenced switch's `MB1` is the trigger note when in 0–127, with the
switch's `Status` string translated; marked not auto-assigned. -/
def remoteFromSwitches (switches : List PlistValue) (a : PlistValue) : Option RemoteTrigger :=
  match switchFor switches (artIdKey a) with
  | some sw =>
      match asInt (dGet sw "MB1") with
      | some m =>
          if 0 ≤ m ∧ m ≤ 127 then
            some ⟨statusOf (dGet sw "Status"), m, false⟩
          else none
      | none => none
  | none => none

/-- The remote trigger of one parsed entry: the switch-table trigger when
one was produced, otherwise the fallback `if (!remoteTrigger && mb1 !==
undefined && mb1 >= 0)` synthesizing a Note On from the output `MB1` value
(note: only `MB1`, not the `Note` key, and with no upper bound check),
marked auto-assigned. -/
def artRemote (switches : List PlistValue) (a : PlistValue) : Option RemoteTrigger :=
  match remoteFromSwitches switches a with
  | some rt => some rt
  | none =>
      match artMb1 a with
      | some m => if 0 ≤ m then some ⟨144, m, true⟩ else none
      | none => none

/-- Resolved articulation name: `artData['Name'] || artData['name'] ||
`Articulation ${index + 1}``. -/
def artName (a : PlistValue) (index : Nat) : String :=
  strOrElse (jsOr (aGet a "Name") (aGet a "name")) ("Articulation " ++ toString (index + 1))

/-- Upper-casing character by character (`toUpperCase` on the ASCII names
involved). -/
def upperStr (s : String) : String :=
  ⟨s.toList.map Char.toUpper⟩

/-- Short name: `ShortName || shortName || name.substring(0, 4).toUpperCase()`. -/
def artShortName (a : PlistValue) (index : Nat) : String :=
  strOrElse (jsOr (aGet a "ShortName") (aGet a "shortName"))
    (upperStr ⟨(artName a index).toList.take 4⟩)

/-- Description: `Description || description || name`. -/
def artDescription (a : PlistValue) (index : Nat) : String :=
  strOrElse (jsOr (aGet a "Description") (aGet a "description")) (artName a index)

/-- Color: `Color || color || (index % 16)` (so an explicit `0` also falls
through to the index-based palette slot). -/
def artColor (a : PlistValue) (index : Nat) : Int :=
  intOrElse (jsOr (aGet a "Color") (aGet a "color")) ((index % 16 : Nat) : Int)

/-- Group: `Group || group || 0`. -/
def artGroup (a : PlistValue) : Int :=
  intOrElse (jsOr (aGet a "Group") (aGet a "group")) 0

/-- Articulation type: `(Type || type || 'attribute') === 'direction' ? 1 : 0`. -/
def artTypeNum (a : PlistValue) : Int :=
  match jsOr (aGet a "Type") (aGet a "type") with
  | some (.str s) => if s == "direction" then 1 else 0
  | _ => 0

/-- Key switch field: `mb1 ?? keySwitch` (the raw `MB1`, else the raw
`Note ?? note` value). -/
def artKeySwitchField (a : PlistValue) : Option Int :=
  match artMb1 a with
  | some m => some m
  | none => artNoteKey a

/-- Build one articulation from its entry (the body of the
`articulationsData.forEach` loop); `gen index` stands for the generated
`logic_art_${index}_${Date.now()}_${random}` id. -/
def buildArticulation (gen : Nat → String) (switches : List PlistValue)
    (index : Nat) (a : PlistValue) : Articulation :=
  { id := gen index
    name := artName a index
    shortName := artShortName a index
    description := artDescription a index
    color := artColor a index
    group := artGroup a
    midiMessages := artMessages a
    remoteTrigger := artRemote switches a
    keySwitch := artKeySwitchField a
    articulationType := artTypeNum a }

/-- Build the articulation list in document order with a running index. -/
def buildArticulations (gen : Nat → String) (switches : List PlistValue) :
    Nat → List PlistValue → List Articulation
  | _, [] => []
  | i, a :: rest =>
      buildArticulation gen switches i a :: buildArticulations gen switches (i + 1) rest

/-- Remove the first occurrence of `pat` from `l`
(JavaScript `String.prototype.replace` with a plain-string pattern). -/
def removeFirst (l pat : List Char) : List Char :=
  if pat.isEmpty then l
  else
    match l with
    | [] => []
    | c :: t =>
        if pat.isPrefixOf (c :: t) then t.drop (pat.length - 1)
        else c :: removeFirst t pat

/-- Model of `fileName.replace('.plist', '')`: drop the first occurrence of `.plist`. -/
def replaceFirstPlist (s : String) : String :=
  ⟨removeFirst s.toList ".plist".toList⟩

/-- Model of `setName.replace(/\.plist$/, '')`: drop a trailing `.plist`. -/
def stripPlistSuffixEnd (s : String) : String :=
  if ".plist".toList.isSuffixOf s.toList then
    ⟨s.toList.take (s.toList.length - 6)⟩
  else s

/-- Model of `setName.replace(/^[A-Z]{2,}\s+/, '')`: when the name starts with at
least two capital letters directly followed by whitespace, drop that
leading capital run and the following whitespace run (the greedy regex
match). -/
def stripVendorTag (s : String) : String :=
  let l := s.toList
  let ups := l.takeWhile fun c => decide ('A' ≤ c) && decide (c ≤ 'Z')
  let rest := l.drop ups.length
  if 2 ≤ ups.length then
    match rest with
    | c :: _ => if c.isWhitespace then ⟨rest.dropWhile Char.isWhitespace⟩ else s
    | [] => s
  else s

/-- Resolved set name: `Name || name || fileName.replace('.plist', '')`,
then `.replace(/\.plist$/, '').replace(/^[A-Z]{2,}\s+/, '')`. -/
def setNameOf (root : List (String × PlistValue)) (fileName : String) : String :=
  stripVendorTag (stripPlistSuffixEnd
    (strOrElse (jsOr (dGet root "Name") (dGet root "name")) (replaceFirstPlist fileName)))

/-- An array-valued top-level field (`Articulations`/`Switches`, either
casing, `|| []`). -/
def arrField (root : List (String × PlistValue)) (k1 k2 : String) : List PlistValue :=
  match jsOr (dGet root k1) (dGet root k2) with
  | some (.arr l) => l
  | _ => []

/-- Parse an articulation-set document (`parseLogicArticulationSet`),
starting from the decoded root dict of the plist; `gen` supplies the
per-index generated ids. -/
def parseLogicArticulationSet (gen : Nat → String)
    (root : List (String × PlistValue)) (fileName : String) : ArticulationSet :=
  { name := setNameOf root fileName
    fileName := fileName
    articulations :=
      buildArticulations gen (arrField root "Switches" "switches") 0
        (arrField root "Articulations" "articulations") }

/-! ## Auto-assignment engine (`autoAssignRemoteTriggers` and helpers) -/

/-- Notes already used by non-auto-assigned remote triggers (the
`usedNotes` set built at the top of `autoAssignRemoteTriggers`). -/
def collectUsedNotes (arts : List Articulation) : List Int :=
  arts.filterMap fun a =>
    match a.remoteTrigger with
    | some rt => if rt.isAutoAssigned then none else some rt.data1
    | none => none

/-- The scanning loop `while (usedNotes.has(nextNote) && nextNote <= 127)
nextNote++`, driven by explicit gas; the gas chosen in `findNextNote`
always covers the at most `128 - n` iterations the loop can make. -/
def nextAvailAux (used : List Int) : Nat → Int → Int
  | 0, n => n
  | gas + 1, n =>
      if n ∈ used ∧ n ≤ 127 then nextAvailAux used gas (n + 1) else n

/-- First note `≥ n` not in `used` (or a value `> 127` when the scan ran
past the end of the MIDI range). -/
def findNextNote (used : List Int) (n : Int) : Int :=
  nextAvailAux used (129 - n).toNat n

/-- The assignment pass over the articulations: entries that already carry
any remote trigger are returned unchanged; each entry without one receives
the next available note (which is then added to the used set), and the pass
aborts with the source's error message when the scan runs past note 127. -/
def assignLoop (used : List Int) (next : Int) :
    List Articulation → Except String (List Articulation)
  | [] => .ok []
  | a :: rest =>
      match a.remoteTrigger with
      | some _ => (assignLoop used next rest).map fun l => a :: l
      | none =>
          let n := findNextNote used next
          if n > 127 then .error "No more available MIDI notes for remote triggers"
          else
            (assignLoop (n :: used) (n + 1) rest).map fun l =>
              { a with remoteTrigger := some ⟨144, n, true⟩ } :: l

/-- Model of `autoAssignRemoteTriggers(artSet, startNote = 0)`: a functional update
producing a new set value (the source never mutates its argument); the
thrown `Error` is modelled as `Except.error`. -/
def autoAssignRemoteTriggers (artSet : ArticulationSet) (startNote : Int := 0) :
    Except String ArticulationSet :=
  (assignLoop (collectUsedNotes artSet.articulations) startNote artSet.articulations).map
    fun arts => { artSet with articulations := arts }

/-- Model of `hasUnassignedRemotes`: some articulation lacks a remote trigger. -/
def hasUnassignedRemotes (artSet : ArticulationSet) : Bool :=
  artSet.articulations.any fun a => a.remoteTrigger.isNone

/-- Model of `countAutoAssignedRemotes`: number of articulations whose remote
trigger is marked auto-assigned. -/
def countAutoAssignedRemotes (artSet : ArticulationSet) : Nat :=
  (artSet.articulations.filter fun a =>
    match a.remoteTrigger with
    | some rt => rt.isAutoAssigned
    | none => false).length

/-- Number of articulations still lacking a remote trigger. -/
def countUnassigned (arts : List Articulation) : Nat :=
  (arts.filter fun a => a.remoteTrigger.isNone).length

/-- Number of MIDI notes 0–127 not yet in the used set and at or above the
scan position `next`. -/
def freeAbove (used : List Int) (next : Int) : Nat :=
  ((Finset.Icc (0 : Int) 127).filter fun k => next ≤ k ∧ k ∉ used).card

/-- Number of MIDI notes 0–127 not in the used set. -/
def freeNotes (used : List Int) : Nat :=
  ((Finset.Icc (0 : Int) 127).filter fun k => k ∉ used).card

/-! ## Track-to-set matching (`page.tsx` handler and the articulations API) -/

/-- Substring test on character lists (JavaScript
`String.prototype.includes`). -/
def subList (needle : List Char) : List Char → Bool
  | [] => needle.isEmpty
  | c :: t => needle.isPrefixOf (c :: t) || subList needle t

/-- Case-insensitive lowering (`toLowerCase` on the ASCII names involved). -/
def lowerStr (s : String) : String :=
  ⟨s.toList.map Char.toLower⟩

/-- Model of `hay.includes(needle)` on strings. -/
def jsIncludes (hay needle : String) : Bool :=
  subList needle.toList hay.toList

/-- The session-cache test of the `onTrackName` handler: a loaded set
matches when its name contains the track name or the track name contains
the set name, case-insensitively. -/
def cacheMatches (setName trackName : String) : Bool :=
  jsIncludes (lowerStr setName) (lowerStr trackName) ||
  jsIncludes (lowerStr trackName) (lowerStr setName)

/-- One catalogue entry returned by the articulations API. -/
structure CatEntry where
  name : String
  path : String
deriving DecidableEq, Repr

/-- The server-side filter of `GET /api/articulations`: keep entries whose
lower-cased name or path contains the lower-cased search term. -/
def matchesEntry (search : String) (e : CatEntry) : Bool :=
  jsIncludes (lowerStr e.name) search || jsIncludes (lowerStr e.path) search

/-- The filtered, capped list the API returns
(`sets.filter(...)` then `sets.slice(0, 100)`). -/
def searchResults (trackName : String) (catalogue : List CatEntry) : List CatEntry :=
  (catalogue.filter (matchesEntry (lowerStr trackName))).take 100

/-- The client-side "exact" preference: an entry whose lower-cased name
contains the lower-cased track name. -/
def nameContainsTrack (trackName : String) (e : CatEntry) : Bool :=
  jsIncludes (lowerStr e.name) (lowerStr trackName)

/-- Resolution of a track name against the catalogue, as performed by the
`onTrackName` handler: query the API, then
`exactMatch = sets.find(name-contains-track)` and
`bestMatch = exactMatch || sets[0]`; an empty result list loads nothing. -/
def resolveFromCatalogue (trackName : String) (catalogue : List CatEntry) :
    Option CatEntry :=
  match searchResults trackName catalogue with
  | [] => none
  | first :: rest =>
      some (((first :: rest).find? (nameContainsTrack trackName)).getD first)

/-! ## MIDI dispatch channel override (`midiHandler.ts`) -/

/-- The mutable state of `MidiHandler` relevant to channel policy:
`private channel: number = 0`. -/
structure MidiHandlerState where
  channel : Int
deriving DecidableEq, Repr

/-- The handler's initial state. -/
def initialMidiHandlerState : MidiHandlerState := ⟨0⟩

/-- Model of `setChannel(channel) { this.channel = Math.max(0, Math.min(15, channel)) }`. -/
def setChannel (s : MidiHandlerState) (channel : Int) : MidiHandlerState :=
  { s with channel := max 0 (min 15 channel) }

/-- The per-message status transformation of `sendMessages`: when the
global channel applies and `128 <= status < 240`, the low nibble of the
status byte is replaced by the channel
(`status = (status & 0xF0) | this.channel`).  Inside the guard the status
is a non-negative integer, and the stored channel is non-negative in every
reachable state, so the JavaScript 32-bit bitwise operators agree with the
`Nat` bitwise operators used here. -/
def sendOneMessage (channel : Int) (useGlobalChannel : Bool) (msg : MidiMessage) :
    MidiMessage :=
  if useGlobalChannel = true ∧ 128 ≤ msg.status ∧ msg.status < 240 then
    { msg with status := (((msg.status.toNat &&& 0xF0) ||| channel.toNat : Nat) : Int) }
  else msg

/-- Model of `sendMessages(messages, useGlobalChannel = true)`: the sequence of
3-byte messages handed to the output collaborator. -/
def sendMessages (s : MidiHandlerState) (messages : List MidiMessage)
    (useGlobalChannel : Bool := true) : List MidiMessage :=
  messages.map (sendOneMessage s.channel useGlobalChannel)

/-- State after a sequence of `setChannel` calls, starting from the
handler's initial state. -/
def channelAfter (calls : List Int) : MidiHandlerState :=
  calls.foldl setChannel initialMidiHandlerState

/-! ## Bridge-server broadcast scoping (`midi-server.js`, `src/unnamed/part_001`) -/

/-- Session roles: every accepted connection defaults to `browser` (the
display role) and becomes `trackMonitor` (the detector role) on an
`identify` message with `clientType: 'track-monitor'`. -/
inductive ClientRole where
  | browser
  | trackMonitor
deriving DecidableEq, Repr

/-- One WebSocket session as the broadcast code sees it: its role and
whether `readyState === WebSocket.OPEN`. -/
structure WsClient where
  sessionId : Nat
  role : ClientRole
  isOpen : Bool
deriving DecidableEq, Repr

/-- The recipients of `broadcastTrackName`: the server iterates `wsClients`
and sends the `trackChange` message to every client that is open and has
the browser (display) role — the `trackChange` handler calls this for the
message it received, whatever session it came from. -/
def broadcastTrackNameRecipients (clients : List WsClient) : List WsClient :=
  clients.filter fun c => c.isOpen && c.role == ClientRole.browser

/-! ## Concrete documents used by the parser claims -/

/-- The Format B (Art Conductor) document of the round-trip scenario: one
`Switches` entry `{ID: 1, MB1: 62, Status: "Note On"}` and one
`Articulations` entry `{ID: 1, Output: {MB1: 60, Status: "Note On"}}`. -/
def formatBDoc : List (String × PlistValue) :=
  [("Switches", .arr [.dict [("ID", .int 1), ("MB1", .int 62), ("Status", .str "Note On")]]),
   ("Articulations", .arr [.dict [("ID", .int 1),
      ("Output", .dict [("MB1", .int 60), ("Status", .str "Note On")])]])]

/-- A standard-Logic-format document whose single articulation entry has an
`Output` tree with only a `Note` key (no `MB1`) and no switch table. -/
def noteOnlyDoc : List (String × PlistValue) :=
  [("Articulations", .arr [.dict [("Output", .dict [("Note", .int 60)])]])]

/-- Erase the parse-time generated id, the one field allowed to differ
between reparses. -/
def stripId (a : Articulation) : Articulation :=
  { a with id := "" }

/-- Auxiliary: the articulation list built from the same entries with two
different id generators agrees everywhere except the generated ids. -/
theorem buildArticulations_stripId (g g' : Nat → String) (switches : List PlistValue) :
    ∀ (l : List PlistValue) (i : Nat),
      (buildArticulations g switches i l).map stripId =
      (buildArticulations g' switches i l).map stripId := by
  intro l
  induction l with
  | nil => intro i; rfl
  | cons a rest ih =>
      intro i
      simp only [buildArticulations, List.map_cons]
      exact congrArg₂ _ rfl (ih (i + 1))

/-- C1: parsing the Format B document with one Switches entry
`{ID:1, MB1:62, Status:"Note On"}` and one Articulations entry
`{ID:1, Output:{MB1:60, Status:"Note On"}}` yields a set with exactly one
articulation, whose output messages contain the MIDI trigger
`{status: 0x90, data1: 60, data2: 127}` and whose remote trigger is
`{status: 0x90, data1: 62, isAutoAssigned: false}` — for any id
generator. -/
theorem C1_formatB_roundtrip : ∀ gen : Nat → String, ∃ art : Articulation,
    (parseLogicArticulationSet gen formatBDoc "Test.plist").articulations = [art] ∧
    MidiMessage.mk 144 60 127 ∈ art.midiMessages ∧
    art.remoteTrigger = some ⟨144, 62, false⟩ := by
  intro gen
  exact ⟨_, rfl, List.mem_singleton.mpr rfl, rfl⟩

/-- C8: parsing is deterministic up to the generated id — for every decoded
document and file hint, two parses (with arbitrary id generators standing
for the `Date.now()`/`Math.random()` id source) agree on the set name, the
file name, and every articulation field except `id`, in the same order. -/
theorem C8_parse_deterministic_up_to_id :
    ∀ (g g' : Nat → String) (root : List (String × PlistValue)) (fileName : String),
      (parseLogicArticulationSet g root fileName).name =
        (parseLogicArticulationSet g' root fileName).name ∧
      (parseLogicArticulationSet g root fileName).fileName =
        (parseLogicArticulationSet g' root fileName).fileName ∧
      (parseLogicArticulationSet g root fileName).articulations.map stripId =
        (parseLogicArticulationSet g' root fileName).articulations.map stripId := by
  intro g g' root fileName
  exact ⟨rfl, rfl, buildArticulations_stripId g g' _ _ 0⟩

/-- C6 counterexample: an articulation entry whose Output sub-tree yielded
the note 60 from the `Note` key (so output messages were parsed) but has no
switch-table match gets NO remote trigger — the fallback reads only the
`MB1` key, contradicting the claim that a note from either `MB1` or `Note`
is synthesized into a remote trigger. -/
theorem C6_note_key_no_fallback_cex :
    ((parseLogicArticulationSet (fun _ => "") noteOnlyDoc "x.plist").articulations.map
        Articulation.remoteTrigger) = [none] ∧
    ((parseLogicArticulationSet (fun _ => "") noteOnlyDoc "x.plist").articulations.map
        Articulation.midiMessages) = [[⟨144, 60, 127⟩]] := by
  exact ⟨rfl, rfl⟩

/-- C6 (amended): for every parsed articulation entry with no switch-table
remote trigger, the parser synthesizes a remote trigger with status Note On
(0x90), data1 equal to the output `MB1` value and `isAutoAssigned = true`
exactly when the `Output` sub-tree has an `MB1` value `≥ 0`; an entry with
neither a switch-table remote nor an `MB1` value gets no remote trigger,
even when the `Note` key yielded an output note. -/
theorem C6_fallback_uses_mb1_only :
    (∀ (switches : List PlistValue) (a : PlistValue) (m : Int),
        remoteFromSwitches switches a = none → artMb1 a = some m → 0 ≤ m →
        artRemote switches a = some ⟨144, m, true⟩) ∧
    (∀ (switches : List PlistValue) (a : PlistValue),
        remoteFromSwitches switches a = none → artMb1 a = none →
        artRemote switches a = none) := by
  constructor
  · intro switches a m hsw hmb hm
    unfold artRemote
    rw [hsw, hmb]
    simp [hm]
  · intro switches a hsw hmb
    unfold artRemote
    rw [hsw, hmb]

/-- C6 witness: the amended fallback rule applied to a concrete entry with
`Output.MB1 = 60` and an empty switch table. -/
theorem C6_fallback_uses_mb1_only_witness :
    artRemote [] (.dict [("Output", .dict [("MB1", .int 60)])]) = some ⟨144, 60, true⟩ :=
  C6_fallback_uses_mb1_only.1 [] (.dict [("Output", .dict [("MB1", .int 60)])]) 60
    rfl rfl (by decide)

/-! ## Lemmas about the auto-assignment engine -/

/-- Mapping a function over an `Except` preserves success. -/
theorem isOk_map {ε α β : Type} (f : α → β) (e : Except ε α) :
    (Except.map f e).isOk = e.isOk := by
  cases e <;> rfl

/-- The scan result never goes below its starting point. -/
theorem nextAvailAux_ge (used : List Int) :
    ∀ (gas : Nat) (n : Int), n ≤ nextAvailAux used gas n := by
  intro gas
  induction gas with
  | zero => intro n; simp [nextAvailAux]
  | succ g ih =>
      intro n
      simp only [nextAvailAux]
      split
      · exact le_trans (by omega) (ih (n + 1))
      · exact le_refl n

/-- Every note between the starting point and the scan result is used. -/
theorem nextAvailAux_mem_below (used : List Int) :
    ∀ (gas : Nat) (n m : Int), n ≤ m → m < nextAvailAux used gas n → m ∈ used := by
  intro gas
  induction gas with
  | zero =>
      intro n m hnm hlt
      simp [nextAvailAux] at hlt
      omega
  | succ g ih =>
      intro n m hnm hlt
      simp only [nextAvailAux] at hlt
      by_cases hc : n ∈ used ∧ n ≤ 127
      · rw [if_pos hc] at hlt
        rcases eq_or_lt_of_le hnm with h | h
        · subst h; exact hc.1
        · exact ih (n + 1) m (by omega) hlt
      · rw [if_neg hc] at hlt
        omega

/-- With enough gas, the scan stops only at an unused note or past 127. -/
theorem nextAvailAux_exit (used : List Int) :
    ∀ (gas : Nat) (n : Int), 128 - n < (gas : Int) →
      ¬(nextAvailAux used gas n ∈ used ∧ nextAvailAux used gas n ≤ 127) := by
  intro gas
  induction gas with
  | zero =>
      intro n h
      simp only [nextAvailAux]
      rintro ⟨-, h2⟩
      push_cast at h
      omega
  | succ g ih =>
      intro n h
      simp only [nextAvailAux]
      split
      · exact ih (n + 1) (by push_cast at h ⊢; omega)
      · assumption

/-- The function `findNextNote` stops only at an unused note or past 127. -/
theorem findNextNote_exit (used : List Int) (n : Int) :
    ¬(findNextNote used n ∈ used ∧ findNextNote used n ≤ 127) := by
  unfold findNextNote
  apply nextAvailAux_exit
  omega

/-- The function `findNextNote` never goes below its starting point. -/
theorem findNextNote_ge (used : List Int) (n : Int) : n ≤ findNextNote used n :=
  nextAvailAux_ge used _ n

/-- Every note between the starting point and the `findNextNote` result is
used. -/
theorem findNextNote_mem_below (used : List Int) (n m : Int)
    (hnm : n ≤ m) (hlt : m < findNextNote used n) : m ∈ used :=
  nextAvailAux_mem_below used _ n m hnm hlt

/-- When the scan runs past 127, no note at or above the scan position is
free. -/
theorem freeAbove_eq_zero_of_exhausted (used : List Int) (next : Int)
    (hex : 127 < findNextNote used next) : freeAbove used next = 0 := by
  unfold freeAbove
  rw [Finset.card_eq_zero, Finset.filter_eq_empty_iff]
  intro k hk
  simp only [Finset.mem_Icc] at hk
  intro hcontra
  exact hcontra.2 (findNextNote_mem_below used next k hcontra.1 (by omega))

/-- Assigning the found note consumes exactly one free slot. -/
theorem freeAbove_step (used : List Int) (next : Int) (h0 : 0 ≤ next)
    (hle : findNextNote used next ≤ 127) :
    freeAbove used next = freeAbove (findNextNote used next :: used) (findNextNote used next + 1) + 1 := by
  have hnotmem : findNextNote used next ∉ used := fun hmem =>
    findNextNote_exit used next ⟨hmem, hle⟩
  have hge : next ≤ findNextNote used next := findNextNote_ge used next
  unfold freeAbove
  have hset :
      ((Finset.Icc (0 : Int) 127).filter fun k => next ≤ k ∧ k ∉ used) =
        insert (findNextNote used next)
          ((Finset.Icc (0 : Int) 127).filter fun k =>
            findNextNote used next + 1 ≤ k ∧ k ∉ (findNextNote used next :: used)) := by
    ext k
    simp only [Finset.mem_filter, Finset.mem_insert, Finset.mem_Icc, List.mem_cons]
    constructor
    · rintro ⟨⟨hk0, hk127⟩, hnk, hku⟩
      by_cases hkn : k = findNextNote used next
      · exact Or.inl hkn
      · refine Or.inr ⟨⟨hk0, hk127⟩, ?_, ?_⟩
        · rcases lt_or_le k (findNextNote used next) with h | h
          · exact absurd (findNextNote_mem_below used next k hnk h) hku
          · omega
        · rintro (h | h)
          · exact hkn h
          · exact hku h
    · rintro (h | ⟨⟨hk0, hk127⟩, hnk, hku⟩)
      · subst h
        exact ⟨⟨by omega, hle⟩, hge, hnotmem⟩
      · exact ⟨⟨hk0, hk127⟩, by omega, fun h => hku (Or.inr h)⟩
  rw [hset, Finset.card_insert_of_not_mem]
  simp only [Finset.mem_filter]
  rintro ⟨-, hcontra, -⟩
  omega

/-- The assignment pass succeeds exactly when the number of articulations
still lacking a remote trigger does not exceed the number of free notes at
or above the scan position. -/
theorem assignLoop_isOk_iff :
    ∀ (l : List Articulation) (used : List Int) (next : Int), 0 ≤ next →
      ((assignLoop used next l).isOk = true ↔ countUnassigned l ≤ freeAbove used next) := by
  intro l
  induction l with
  | nil =>
      intro used next _
      simp [assignLoop, countUnassigned, Except.isOk, Except.toBool]
  | cons a rest ih =>
      intro used next h0
      cases hrt : a.remoteTrigger with
      | some rt =>
          simp only [assignLoop, hrt]
          rw [isOk_map, ih used next h0]
          simp [countUnassigned, List.filter_cons, hrt]
      | none =>
          simp only [assignLoop, hrt]
          by_cases hn : findNextNote used next > 127
          · rw [if_pos hn]
            have hz := freeAbove_eq_zero_of_exhausted used next hn
            simp [Except.isOk, Except.toBool, countUnassigned, List.filter_cons, hrt, hz]
          · rw [if_neg hn]
            rw [isOk_map, ih _ _ (by have := findNextNote_ge used next; omega)]
            rw [freeAbove_step used next h0 (by omega)]
            simp [countUnassigned, List.filter_cons, hrt]

/-- A successful assignment pass leaves every articulation of the result
with a remote trigger. -/
theorem assignLoop_ok_all_some :
    ∀ (l : List Articulation) (used : List Int) (next : Int) (l' : List Articulation),
      assignLoop used next l = .ok l' → ∀ a ∈ l', a.remoteTrigger.isSome = true := by
  intro l
  induction l with
  | nil =>
      intro used next l' h
      simp only [assignLoop] at h
      cases h
      intro a ha
      cases ha
  | cons a rest ih =>
      intro used next l' h
      cases hrt : a.remoteTrigger with
      | some rt =>
          simp only [assignLoop, hrt] at h
          cases hr : assignLoop used next rest with
          | error e => rw [hr] at h; cases h
          | ok l₁ =>
              rw [hr] at h
              cases h
              intro b hb
              rcases List.mem_cons.mp hb with hb | hb
              · subst hb; simp [hrt]
              · exact ih used next l₁ hr b hb
      | none =>
          simp only [assignLoop, hrt] at h
          by_cases hn : findNextNote used next > 127
          · rw [if_pos hn] at h; cases h
          · rw [if_neg hn] at h
            cases hr : assignLoop (findNextNote used next :: used) (findNextNote used next + 1) rest with
            | error e => rw [hr] at h; cases h
            | ok l₁ =>
                rw [hr] at h
                cases h
                intro b hb
                rcases List.mem_cons.mp hb with hb | hb
                · subst hb; rfl
                · exact ih _ _ l₁ hr b hb

/-- On a list whose articulations all carry remote triggers already, the
assignment pass is the identity. -/
theorem assignLoop_all_some_id :
    ∀ (l : List Articulation) (used : List Int) (next : Int),
      (∀ a ∈ l, a.remoteTrigger.isSome = true) →
      assignLoop used next l = .ok l := by
  intro l
  induction l with
  | nil => intro used next _; rfl
  | cons a rest ih =>
      intro used next hall
      cases hrt : a.remoteTrigger with
      | some rt =>
          simp only [assignLoop, hrt]
          rw [ih used next fun b hb => hall b (List.mem_cons_of_mem a hb)]
          rfl
      | none =>
          have := hall a (List.mem_cons_self a rest)
          rw [hrt] at this
          cases this


/-- The assignment pass never touches an articulation that already carries
a remote trigger: the output corresponds pointwise to the input, and at
every position whose input articulation had a remote trigger the output is
that same articulation. -/
theorem assignLoop_untouched :
    ∀ (l : List Articulation) (used : List Int) (next : Int) (l' : List Articulation),
      assignLoop used next l = .ok l' →
      List.Forall₂ (fun a b => a.remoteTrigger.isSome = true → b = a) l l' := by
  intro l
  induction l with
  | nil =>
      intro used next l' h
      simp only [assignLoop] at h
      cases h
      exact List.Forall₂.nil
  | cons a rest ih =>
      intro used next l' h
      cases hrt : a.remoteTrigger with
      | some rt =>
          simp only [assignLoop, hrt] at h
          cases hr : assignLoop used next rest with
          | error e => rw [hr] at h; cases h
          | ok l₁ =>
              rw [hr] at h
              cases h
              exact List.Forall₂.cons (fun _ => rfl) (ih used next l₁ hr)
      | none =>
          simp only [assignLoop, hrt] at h
          by_cases hn : findNextNote used next > 127
          · rw [if_pos hn] at h; cases h
          · rw [if_neg hn] at h
            cases hr : assignLoop (findNextNote used next :: used) (findNextNote used next + 1) rest with
            | error e => rw [hr] at h; cases h
            | ok l₁ =>
                rw [hr] at h
                cases h
                refine List.Forall₂.cons ?_ (ih _ _ l₁ hr)
                intro hsome
                rw [hrt] at hsome
                cases hsome

/-- Demo articulation lacking a remote trigger (used by the witnesses). -/
def demoArt : Articulation :=
  ⟨"art0", "Sustain", "SUST", "Sustain", 6, 0, [⟨144, 0, 127⟩], none, some 0, 0⟩

/-- Demo one-articulation set with an unassigned remote trigger. -/
def demoSet : ArticulationSet := ⟨"Demo", "demo.plist", [demoArt]⟩

/-- The result of auto-assigning `demoSet` from note 0. -/
def demoAssigned : ArticulationSet :=
  ⟨"Demo", "demo.plist", [{ demoArt with remoteTrigger := some ⟨144, 0, true⟩ }]⟩

/-- C2: auto-assignment is idempotent on its own output — whenever a first
application returns normally, applying it again with the same start note
returns the very same set (so no remote trigger note is reassigned and
`countAutoAssignedRemotes` is unchanged), and every application leaves each
articulation that already carries a remote trigger (in particular every
non-auto one) untouched at its position. -/
theorem C2_autoAssign_idempotent :
    ∀ (s : ArticulationSet) (startNote : Int) (s' : ArticulationSet),
      autoAssignRemoteTriggers s startNote = .ok s' →
      autoAssignRemoteTriggers s' startNote = .ok s' ∧
      List.Forall₂ (fun a b => a.remoteTrigger.isSome = true → b = a)
        s.articulations s'.articulations := by
  intro s startNote s' h
  unfold autoAssignRemoteTriggers at h
  cases hr : assignLoop (collectUsedNotes s.articulations) startNote s.articulations with
  | error e => rw [hr] at h; simp [Except.map] at h
  | ok arts =>
      rw [hr] at h
      simp only [Except.map] at h
      cases h
      refine ⟨?_, assignLoop_untouched _ _ _ _ hr⟩
      unfold autoAssignRemoteTriggers
      have hall := assignLoop_ok_all_some _ _ _ _ hr
      rw [assignLoop_all_some_id arts _ startNote hall]
      rfl

/-- C2 witness: the idempotence law applied to the one-articulation demo
set, whose first assignment gives note 0 auto-assigned. -/
theorem C2_autoAssign_idempotent_witness :
    autoAssignRemoteTriggers demoAssigned 0 = .ok demoAssigned :=
  (C2_autoAssign_idempotent demoSet 0 demoAssigned rfl).1

/-- C9: after a successful auto-assignment pass, every articulation of the
result carries a remote trigger, so `hasUnassignedRemotes` is false on the
result and nothing is left for a further pass to assign. -/
theorem C9_autoAssign_leaves_none_unassigned :
    ∀ (s : ArticulationSet) (startNote : Int) (s' : ArticulationSet),
      autoAssignRemoteTriggers s startNote = .ok s' →
      hasUnassignedRemotes s' = false ∧ countUnassigned s'.articulations = 0 := by
  intro s startNote s' h
  unfold autoAssignRemoteTriggers at h
  cases hr : assignLoop (collectUsedNotes s.articulations) startNote s.articulations with
  | error e => rw [hr] at h; simp [Except.map] at h
  | ok arts =>
      rw [hr] at h
      simp only [Except.map] at h
      cases h
      have hall := assignLoop_ok_all_some _ _ _ _ hr
      constructor
      · unfold hasUnassignedRemotes
        rw [List.any_eq_false]
        intro a ha
        have hs := hall a ha
        cases hx : a.remoteTrigger with
        | none => rw [hx] at hs; cases hs
        | some rt => simp [hx]
      · unfold countUnassigned
        rw [List.length_eq_zero, List.filter_eq_nil_iff]
        intro a ha
        have hs := hall a ha
        cases hx : a.remoteTrigger with
        | none => rw [hx] at hs; cases hs
        | some rt => simp [hx]

/-- C9 witness: the completion law applied to the demo set. -/
theorem C9_autoAssign_leaves_none_unassigned_witness :
    hasUnassignedRemotes demoAssigned = false :=
  (C9_autoAssign_leaves_none_unassigned demoSet 0 demoAssigned rfl).1

/-- Discounting the scan-position constraint at start note 0 changes
nothing: every note of 0–127 is at or above 0. -/
theorem freeNotes_eq_freeAbove_zero (used : List Int) :
    freeNotes used = freeAbove used 0 := by
  unfold freeNotes freeAbove
  have hfilter :
      ((Finset.Icc (0 : Int) 127).filter fun k => k ∉ used) =
        ((Finset.Icc (0 : Int) 127).filter fun k => (0 : Int) ≤ k ∧ k ∉ used) := by
    refine Finset.filter_congr ?_
    intro x hx
    simp only [Finset.mem_Icc] at hx
    exact ⟨fun h => ⟨hx.1, h⟩, fun h => h.2⟩
  rw [hfilter]

/-- C3: with the default start note 0, auto-assignment fails (with the
source's exhaustion error) exactly when the number of articulations still
lacking a remote trigger exceeds the number of MIDI notes 0–127 not used
by non-auto-assigned remote triggers — i.e. exactly when no note remains
unused while some articulation still needs assignment.  The operation is a
pure function producing a new set value, so the input set is untouched in
every case, in particular when the error is raised. -/
theorem C3_exhaustion_iff :
    ∀ s : ArticulationSet,
      (∃ e, autoAssignRemoteTriggers s 0 = .error e) ↔
      freeNotes (collectUsedNotes s.articulations) < countUnassigned s.articulations := by
  intro s
  unfold autoAssignRemoteTriggers
  rw [freeNotes_eq_freeAbove_zero]
  have hiff := assignLoop_isOk_iff s.articulations (collectUsedNotes s.articulations) 0 le_rfl
  cases hr : assignLoop (collectUsedNotes s.articulations) 0 s.articulations with
  | error e =>
      rw [hr] at hiff
      have hko : (Except.error e : Except String (List Articulation)).isOk = false := rfl
      rw [hko] at hiff
      simp at hiff
      constructor
      · intro _; omega
      · intro _; exact ⟨e, by simp [Except.map]⟩
  | ok arts =>
      rw [hr] at hiff
      have hko : (Except.ok arts : Except String (List Articulation)).isOk = true := rfl
      rw [hko] at hiff
      simp at hiff
      constructor
      · rintro ⟨e, he⟩
        simp [Except.map] at he
      · intro hlt; omega

/-- A set whose 128 articulations already use all notes 0–127 via non-auto
remote triggers, plus one articulation with no remote trigger. -/
def fullSet : ArticulationSet :=
  ⟨"Full", "full.plist",
    ((List.range 128).map fun k =>
      ⟨"art", "Articulation", "ARTI", "Articulation", 0, 0, [],
        some ⟨144, (k : Int), false⟩, none, 0⟩) ++
    [⟨"extra", "Extra", "EXTR", "Extra", 0, 0, [], none, none, 0⟩]⟩

set_option maxRecDepth 100000 in
/-- C3 witness: the exhaustion characterization applied to the concrete
128-pre-used-notes set, on which the pass raises the exhaustion error. -/
theorem C3_exhaustion_iff_witness :
    freeNotes (collectUsedNotes fullSet.articulations) <
      countUnassigned fullSet.articulations :=
  (C3_exhaustion_iff fullSet).mp
    ⟨"No more available MIDI notes for remote triggers", rfl⟩

/-! ## Lemmas about substring matching -/

/-- Holding of `List.isPrefixOf` is the existence of a completing tail. -/
theorem isPrefixOf_iff_append :
    ∀ (l m : List Char), l.isPrefixOf m = true ↔ ∃ t, m = l ++ t := by
  intro l
  induction l with
  | nil => intro m; simp [List.isPrefixOf]
  | cons c l' ih =>
      intro m
      cases m with
      | nil => simp [List.isPrefixOf]
      | cons d m' =>
          simp only [List.isPrefixOf, Bool.and_eq_true, beq_iff_eq]
          constructor
          · rintro ⟨rfl, h2⟩
            obtain ⟨t, rfl⟩ := (ih m').mp h2
            exact ⟨t, rfl⟩
          · rintro ⟨t, ht⟩
            rw [List.cons_append] at ht
            injection ht with h1 h2
            exact ⟨h1.symm, (ih m').mpr ⟨t, h2⟩⟩

/-- The `includes` test decides substring containment: `subList needle hay`
holds exactly when `hay` splits as some prefix, then `needle`, then some
suffix. -/
theorem subList_iff_append :
    ∀ (hay needle : List Char), subList needle hay = true ↔ ∃ p q, hay = p ++ needle ++ q := by
  intro hay
  induction hay with
  | nil =>
      intro needle
      simp only [subList, List.isEmpty_iff]
      constructor
      · intro h; exact ⟨[], [], by simp [h]⟩
      · rintro ⟨p, q, h⟩
        rcases List.append_eq_nil.mp h.symm with ⟨hpn, -⟩
        exact (List.append_eq_nil.mp hpn).2
  | cons c t ih =>
      intro needle
      simp only [subList, Bool.or_eq_true]
      constructor
      · rintro (h | h)
        · obtain ⟨r, hr⟩ := (isPrefixOf_iff_append needle (c :: t)).mp h
          exact ⟨[], r, by simp [hr]⟩
        · obtain ⟨p, q, hpq⟩ := (ih needle).mp h
          exact ⟨c :: p, q, by simp [hpq]⟩
      · rintro ⟨p, q, hpq⟩
        cases p with
        | nil =>
            exact Or.inl ((isPrefixOf_iff_append needle (c :: t)).mpr
              ⟨q, by simpa using hpq⟩)
        | cons x p' =>
            refine Or.inr ((ih needle).mpr ?_)
            rw [List.cons_append, List.cons_append] at hpq
            injection hpq with h1 h2
            exact ⟨p', q, h2⟩

/-- C4 counterexample: track name `"Violin 1"` does not match catalogue
entry `"Stradivari Violin"` — neither in the session cache (neither
lower-cased name contains the other) nor through the catalogue search,
which returns nothing for it; moreover reverse containment alone does not
produce a catalogue match: for track `"Violin 1 Solo Legato"`, whose
lower-cased form contains the entry name `"Violin 1 Solo"`, the catalogue
resolution is also empty. -/
theorem C4_stradivari_no_match_cex :
    cacheMatches "Stradivari Violin" "Violin 1" = false ∧
    resolveFromCatalogue "Violin 1"
      [⟨"Stradivari Violin", "Stradivari Violin.plist"⟩] = none ∧
    jsIncludes (lowerStr "Violin 1 Solo Legato") (lowerStr "Violin 1 Solo") = true ∧
    resolveFromCatalogue "Violin 1 Solo Legato"
      [⟨"Violin 1 Solo", "Violin 1 Solo.plist"⟩] = none := by
  exact ⟨rfl, rfl, rfl, rfl⟩

/-- C4 (amended): the session cache matches case-insensitively in either
containment direction, but catalogue matching is forward-only — an entry is
returned only when its lower-cased name or path contains the lower-cased
track name; no forward match yields an empty result; and among the
returned entries the first whose lower-cased name contains the lower-cased
track name is preferred, otherwise the first match in catalogue order is
taken.  In particular catalogue entry `"Violin 1 Solo"` matches track name
`"violin"`, while track name `"Violin 1"` matches entry `"Stradivari
Violin"` in neither direction and is not matched. -/
theorem C4_matching_amended :
    (∀ (setName trackName : String),
        cacheMatches setName trackName = true ↔
          ((∃ p q, (lowerStr setName).toList = p ++ (lowerStr trackName).toList ++ q) ∨
           (∃ p q, (lowerStr trackName).toList = p ++ (lowerStr setName).toList ++ q))) ∧
    (∀ (trackName : String) (catalogue : List CatEntry),
        resolveFromCatalogue trackName catalogue = none ↔
          ∀ e ∈ catalogue, matchesEntry (lowerStr trackName) e = false) ∧
    (∀ (trackName : String) (catalogue : List CatEntry) (e : CatEntry),
        resolveFromCatalogue trackName catalogue = some e →
          e ∈ catalogue ∧ matchesEntry (lowerStr trackName) e = true) ∧
    (∀ (trackName : String) (catalogue : List CatEntry) (e : CatEntry),
        resolveFromCatalogue trackName catalogue = some e →
          (searchResults trackName catalogue).find? (nameContainsTrack trackName) = some e ∨
          (((searchResults trackName catalogue).all
              fun x => !(nameContainsTrack trackName x)) = true ∧
            (searchResults trackName catalogue).head? = some e)) := by
  refine ⟨?_, ?_, ?_, ?_⟩
  · intro setName trackName
    unfold cacheMatches jsIncludes
    rw [Bool.or_eq_true, subList_iff_append, subList_iff_append]
  · intro trackName catalogue
    unfold resolveFromCatalogue
    cases hsr : searchResults trackName catalogue with
    | nil =>
        simp only [true_iff]
        unfold searchResults at hsr
        rcases List.take_eq_nil_iff.mp hsr with h | h
        · cases h
        · intro e he
          have := List.filter_eq_nil_iff.mp h e he
          simpa using this
    | cons first rest =>
        have hfirst : first ∈ catalogue.filter (matchesEntry (lowerStr trackName)) := by
          have : first ∈ searchResults trackName catalogue := by rw [hsr]; exact List.mem_cons_self _ _
          exact List.take_subset _ _ this
        rcases List.mem_filter.mp hfirst with ⟨hmem, hmatch⟩
        constructor
        · intro h; exact absurd h (by simp)
        · intro hall
          rw [hall first hmem] at hmatch
          cases hmatch
  · intro trackName catalogue e h
    unfold resolveFromCatalogue at h
    cases hsr : searchResults trackName catalogue with
    | nil => rw [hsr] at h; cases h
    | cons first rest =>
        rw [hsr] at h
        injection h with h
        have hin : e ∈ searchResults trackName catalogue := by
          rw [hsr]
          cases hf : (first :: rest).find? (nameContainsTrack trackName) with
          | some x => rw [hf] at h; simp at h; rw [← h]; exact List.mem_of_find?_eq_some hf
          | none => rw [hf] at h; simp at h; rw [← h]; exact List.mem_cons_self _ _
        have hin' : e ∈ catalogue.filter (matchesEntry (lowerStr trackName)) :=
          List.take_subset _ _ hin
        rcases List.mem_filter.mp hin' with ⟨hmem, hmatch⟩
        exact ⟨hmem, hmatch⟩
  · intro trackName catalogue e h
    unfold resolveFromCatalogue at h
    cases hsr : searchResults trackName catalogue with
    | nil => rw [hsr] at h; cases h
    | cons first rest =>
        rw [hsr] at h
        injection h with h
        cases hf : (first :: rest).find? (nameContainsTrack trackName) with
        | some x =>
            rw [hf] at h
            simp at h
            exact Or.inl (by rw [h])
        | none =>
            rw [hf] at h
            simp at h
            refine Or.inr ⟨?_, ?_⟩
            · rw [List.all_eq_true]
              intro x hx
              have := List.find?_eq_none.mp hf x hx
              simpa using this
            · rw [← h]
              rfl

/-- C4 witness: the amended resolution law applied to track `"violin"` and
the one-entry catalogue `"Violin 1 Solo"`, which resolves to that entry. -/
theorem C4_matching_amended_witness :
    (⟨"Violin 1 Solo", "Violin 1 Solo.plist"⟩ : CatEntry) ∈
        ([⟨"Violin 1 Solo", "Violin 1 Solo.plist"⟩] : List CatEntry) ∧
    matchesEntry (lowerStr "violin") ⟨"Violin 1 Solo", "Violin 1 Solo.plist"⟩ = true :=
  C4_matching_amended.2.2.1 "violin" [⟨"Violin 1 Solo", "Violin 1 Solo.plist"⟩]
    ⟨"Violin 1 Solo", "Violin 1 Solo.plist"⟩ rfl

/-! ## MIDI channel-override and clamping claims -/

set_option maxRecDepth 100000 in
/-- Replacing the low nibble of a status byte below 0xF0 with a channel
below 16: the resulting byte has that channel as its low nibble and keeps
the high nibble. -/
theorem nibble_replace :
    ∀ s < 240, ∀ c < 16,
      (((s &&& 240) ||| c) % 16 = c) ∧ ((s &&& 240) ||| c) / 16 = s / 16 := by
  decide

/-- C5: for every 3-byte MIDI trigger dispatched with the global channel
applied and a global channel 0–15, a status byte in the channel-voice range
0x80–0xEF has its low nibble replaced with the global channel (data bytes
untouched, high nibble kept), while any status 0xF0 or above is sent
unmodified; in particular `{0x90, 60, 100}` with channel 5 becomes
`{0x95, 60, 100}` and status 0xF0 is left unchanged. -/
theorem C5_channel_override :
    (∀ (msg : MidiMessage) (ch : Int), 0 ≤ ch → ch ≤ 15 →
        128 ≤ msg.status → msg.status < 240 →
        (sendOneMessage ch true msg).data1 = msg.data1 ∧
        (sendOneMessage ch true msg).data2 = msg.data2 ∧
        (sendOneMessage ch true msg).status.toNat % 16 = ch.toNat ∧
        (sendOneMessage ch true msg).status.toNat / 16 = msg.status.toNat / 16) ∧
    (∀ (msg : MidiMessage) (ch : Int), 240 ≤ msg.status →
        sendOneMessage ch true msg = msg) ∧
    sendOneMessage 5 true ⟨144, 60, 100⟩ = ⟨149, 60, 100⟩ ∧
    sendOneMessage 5 true ⟨240, 0, 0⟩ = ⟨240, 0, 0⟩ := by
  refine ⟨?_, ?_, rfl, rfl⟩
  · intro msg ch h0 h15 h1 h2
    unfold sendOneMessage
    rw [if_pos ⟨rfl, h1, h2⟩]
    have hrep := nibble_replace msg.status.toNat (by omega) ch.toNat (by omega)
    refine ⟨rfl, rfl, ?_, ?_⟩
    · simpa [Int.toNat_natCast] using hrep.1
    · simpa [Int.toNat_natCast] using hrep.2
  · intro msg ch h240
    unfold sendOneMessage
    rw [if_neg]
    rintro ⟨-, -, hlt⟩
    omega

/-- C5 witness: the override law applied to `{0x90, 60, 100}` with channel
5, and the pass-through law applied to status 0xF0. -/
theorem C5_channel_override_witness :
    (sendOneMessage 5 true ⟨144, 60, 100⟩).status.toNat % 16 = (5 : Int).toNat ∧
    sendOneMessage 5 true ⟨240, 0, 0⟩ = ⟨240, 0, 0⟩ :=
  ⟨(C5_channel_override.1 ⟨144, 60, 100⟩ 5 (by decide) (by decide) (by decide)
      (by decide)).2.2.1,
   C5_channel_override.2.1 ⟨240, 0, 0⟩ 5 (by decide)⟩

/-- C10: `setChannel` clamps every integer argument into 0–15 (negative
values become 0, values above 15 become 15, in-range values are kept), so
after any sequence of `setChannel` calls the stored global channel is in
0–15, and every channel-voice message dispatched with the global channel
applied carries a status byte whose low nibble equals that stored channel
and is therefore a valid MIDI channel below 16. -/
theorem C10_channel_clamped :
    (∀ (s : MidiHandlerState) (c : Int), c < 0 → (setChannel s c).channel = 0) ∧
    (∀ (s : MidiHandlerState) (c : Int), 15 < c → (setChannel s c).channel = 15) ∧
    (∀ (s : MidiHandlerState) (c : Int), 0 ≤ c → c ≤ 15 → (setChannel s c).channel = c) ∧
    (∀ calls : List Int,
        0 ≤ (channelAfter calls).channel ∧ (channelAfter calls).channel ≤ 15) ∧
    (∀ (calls : List Int) (msg : MidiMessage), 128 ≤ msg.status → msg.status < 240 →
        (sendOneMessage (channelAfter calls).channel true msg).status.toNat % 16 =
          (channelAfter calls).channel.toNat ∧
        (channelAfter calls).channel.toNat < 16) := by
  have hbounds : ∀ calls : List Int,
      0 ≤ (channelAfter calls).channel ∧ (channelAfter calls).channel ≤ 15 := by
    have hinv : ∀ (calls : List Int) (st : MidiHandlerState),
        0 ≤ st.channel → st.channel ≤ 15 →
        0 ≤ (calls.foldl setChannel st).channel ∧ (calls.foldl setChannel st).channel ≤ 15 := by
      intro calls
      induction calls with
      | nil => intro st h0 h15; exact ⟨h0, h15⟩
      | cons c rest ih =>
          intro st h0 h15
          simp only [List.foldl_cons]
          exact ih (setChannel st c) (by simp only [setChannel]; omega)
            (by simp only [setChannel]; omega)
    intro calls
    exact hinv calls initialMidiHandlerState (by decide) (by decide)
  refine ⟨?_, ?_, ?_, hbounds, ?_⟩
  · intro s c h; simp [setChannel]; omega
  · intro s c h; simp [setChannel]; omega
  · intro s c h0 h15; simp [setChannel]; omega
  · intro calls msg h1 h2
    obtain ⟨hc0, hc15⟩ := hbounds calls
    constructor
    · unfold sendOneMessage
      rw [if_pos ⟨rfl, h1, h2⟩]
      have hrep := nibble_replace msg.status.toNat (by omega)
        (channelAfter calls).channel.toNat (by omega)
      simpa [Int.toNat_natCast] using hrep.1
    · omega

/-- C10 witness: the clamp law applied to a negative argument, an
over-range argument, and a concrete call sequence. -/
theorem C10_channel_clamped_witness :
    (setChannel initialMidiHandlerState (-3)).channel = 0 ∧
    (setChannel initialMidiHandlerState 20).channel = 15 ∧
    0 ≤ (channelAfter [20, -3, 7]).channel ∧ (channelAfter [20, -3, 7]).channel ≤ 15 :=
  ⟨C10_channel_clamped.1 initialMidiHandlerState (-3) (by decide),
   C10_channel_clamped.2.1 initialMidiHandlerState 20 (by decide),
   (C10_channel_clamped.2.2.2.1 [20, -3, 7]).1,
   (C10_channel_clamped.2.2.2.1 [20, -3, 7]).2⟩

/-! ## Bridge-server broadcast claim -/

/-- C7: a `trackChange` broadcast reaches exactly the open browser-role
(display) sessions: a detector-role session — in particular the originating
one — is never among the recipients, every recipient is an open display
session, and every open display session is a recipient. -/
theorem C7_broadcast_scoping :
    ∀ (clients : List WsClient) (origin : WsClient),
      origin.role = ClientRole.trackMonitor →
      origin ∉ broadcastTrackNameRecipients clients ∧
      (∀ c ∈ broadcastTrackNameRecipients clients,
          c.role = ClientRole.browser ∧ c.isOpen = true) ∧
      (∀ c ∈ clients, c.role = ClientRole.browser → c.isOpen = true →
          c ∈ broadcastTrackNameRecipients clients) := by
  intro clients origin hrole
  refine ⟨?_, ?_, ?_⟩
  · intro hmem
    rcases List.mem_filter.mp hmem with ⟨-, hcond⟩
    rw [Bool.and_eq_true] at hcond
    have hbeq := hcond.2
    rw [hrole] at hbeq
    cases hbeq
  · intro c hc
    rcases List.mem_filter.mp hc with ⟨-, hcond⟩
    rw [Bool.and_eq_true] at hcond
    exact ⟨eq_of_beq hcond.2, hcond.1⟩
  · intro c hc hrole2 hopen
    apply List.mem_filter.mpr
    refine ⟨hc, ?_⟩
    rw [Bool.and_eq_true]
    exact ⟨hopen, by rw [hrole2]; exact beq_self_eq_true _⟩

/-- C7 witness: the scoping law applied to a concrete session list with
one open detector (the originator) and one open display session. -/
theorem C7_broadcast_scoping_witness :
    (⟨0, ClientRole.trackMonitor, true⟩ : WsClient) ∉
      broadcastTrackNameRecipients
        [⟨0, ClientRole.trackMonitor, true⟩, ⟨1, ClientRole.browser, true⟩] :=
  (C7_broadcast_scoping
    [⟨0, ClientRole.trackMonitor, true⟩, ⟨1, ClientRole.browser, true⟩]
    ⟨0, ClientRole.trackMonitor, true⟩ rfl).1

end CubbyLogic
